import Mathlib

/-!
# A verification model of `yt-cast`

Shallow embedding of the core of the `yt-cast` repository (a YouTube →
podcast-RSS proxy, Rust) and proofs about it:

* `src/cache.rs`   — a TTL filesystem cache with a lazy cleanup sweep;
* `src/ytdl.rs`    — the `yt-dlp` driver: failure classification,
  channel lookup with URL-convention fallback, cached video listing;
* `src/podcast_proxy.rs` — feed assembly: date parsing and delay
  filtering, publication date tracking, thumbnail selection.

Filesystem state is modelled as an explicit tree of entries; the external
tool, JSON parsing and cache reads appear as explicit oracle parameters,
so every function is a pure, executable Lean definition mirroring the
Rust control flow.
-/

namespace YtCast

/-! ## Cache model (`src/cache.rs`)

The cache directory tree.  A file carries its modification time (seconds)
and a flag saying whether an attempt to delete it fails (modelling the
`fs::remove_file` error branch that `clean` logs and ignores).  -/

inductive Entry where
  | file (name : String) (mtime : Nat) (failsDelete : Bool)
  | dir  (name : String) (children : List Entry)

mutual

/-- Model of `clean()` from `src/cache.rs`, lines 56–93.  The Rust code pops
directories off a worklist; for each directory it records whether it was
empty *at scan time* (`let mut empty = true; ... empty = false` on the
first entry seen), deletes files whose age strictly exceeds `cache_time`
(a failed deletion is logged and the file kept), pushes subdirectories,
and finally removes the directory iff it was empty at scan time.  A
directory's scan reads its entry list before any of its own children are
processed, and no other directory's processing mutates that list, so the
worklist loop is equivalent to this structural recursion: `cleanEntry`
returns `none` when the entry is removed.  `now - mtime` is `Nat`
subtraction, mirroring that a file with `mtime` in the future (where
`SystemTime::elapsed()` errors) is kept. -/
def cleanEntry (now ttl : Nat) : Entry → Option Entry
  | .file n m fd =>
    if now - m > ttl then
      if fd then some (.file n m fd) else none
    else some (.file n m fd)
  | .dir n cs =>
    if cs.isEmpty then none
    else some (.dir n (cleanChildren now ttl cs))

def cleanChildren (now ttl : Nat) : List Entry → List Entry
  | [] => []
  | e :: es =>
    match cleanEntry now ttl e with
    | none => cleanChildren now ttl es
    | some e' => e' :: cleanChildren now ttl es

end

/-- The whole sweep: the Rust code seeds the worklist with the cache
*root* itself (`let mut dirs = vec![root]`), so the root directory is
subject to the same empty-at-scan removal as every other directory.
`none` means the root directory itself was removed. -/
def cleanRoot (now ttl : Nat) (rootChildren : List Entry) : Option (List Entry) :=
  if rootChildren.isEmpty then none
  else some (cleanChildren now ttl rootChildren)

/-- The sweep with the fallible `fs::remove_file` made explicit: the
deletion of an expired file returns an error exactly when the file's
`failsDelete` flag is set, and `clean` catches that error
(`log::warn!`) and keeps going, keeping the file.  Every other step of
the loop is infallible in this model. -/
def removeFileOp (fd : Bool) : Except String Unit :=
  if fd then .error "Couldn't remove expired cache file" else .ok ()

mutual

def cleanEntryE (now ttl : Nat) : Entry → Except String (Option Entry)
  | .file n m fd =>
    if now - m > ttl then
      match removeFileOp fd with
      | .ok () => .ok none
      | .error _ => .ok (some (.file n m fd))
    else .ok (some (.file n m fd))
  | .dir n cs =>
    if cs.isEmpty then .ok none
    else
      match cleanChildrenE now ttl cs with
      | .ok cs' => .ok (some (.dir n cs'))
      | .error e => .error e

def cleanChildrenE (now ttl : Nat) : List Entry → Except String (List Entry)
  | [] => .ok []
  | e :: es =>
    match cleanEntryE now ttl e with
    | .error err => .error err
    | .ok none => cleanChildrenE now ttl es
    | .ok (some e') =>
      match cleanChildrenE now ttl es with
      | .error err => .error err
      | .ok es' => .ok (e' :: es')

end

mutual

/-- All files in the tree, recursively, as `(mtime, failsDelete)` pairs. -/
def entryFiles : Entry → List (Nat × Bool)
  | .file _ m fd => [(m, fd)]
  | .dir _ cs => childrenFiles cs

def childrenFiles : List Entry → List (Nat × Bool)
  | [] => []
  | e :: es => entryFiles e ++ childrenFiles es

end

mutual

/-- No file anywhere in the tree is expired (age `now - mtime` strictly
above `ttl`). -/
def entryFresh (now ttl : Nat) : Entry → Bool
  | .file _ m _ => decide (now - m ≤ ttl)
  | .dir _ cs => childrenFresh now ttl cs

def childrenFresh (now ttl : Nat) : List Entry → Bool
  | [] => true
  | e :: es => entryFresh now ttl e && childrenFresh now ttl es

end

mutual

/-- No directory anywhere in the tree has zero entries. -/
def entryNoEmptyDir : Entry → Bool
  | .file _ _ _ => true
  | .dir _ cs => !cs.isEmpty && childrenNoEmptyDir cs

def childrenNoEmptyDir : List Entry → Bool
  | [] => true
  | e :: es => entryNoEmptyDir e && childrenNoEmptyDir es

end

mutual

/-- No file anywhere in the tree has its `failsDelete` flag set. -/
def entryNoFails : Entry → Bool
  | .file _ _ fd => !fd
  | .dir _ cs => childrenNoFails cs

def childrenNoFails : List Entry → Bool
  | [] => true
  | e :: es => entryNoFails e && childrenNoFails es

end

/-! ## `yt-dlp` driver model (`src/ytdl.rs`) -/

/-- Model of `std::process::Output` as captured by `Command::output()`: exit-status
success flag plus captured stdout and stderr (modelled as strings;
`String::from_utf8_lossy` is the identity on the valid-UTF-8 outputs the
model ranges over). -/
structure Output where
  success : Bool
  stdout : String
  stderr : String
deriving DecidableEq

/-- Model of `enum YtDlError` from `src/ytdl.rs`.  `Other` models the
`anyhow::Error` payload as its message string. -/
inductive YtDlError where
  | YtDlpNotFound
  | ItemNotFound
  | YtDlpOutputError (output : Output)
  | Other (msg : String)
deriving DecidableEq

/-- The outcome of spawning the external binary
(`Command::new(path).args(args).output().await`): the binary may be
missing (`io::ErrorKind::NotFound`), spawning may fail for another I/O
reason, or the process runs to completion with an `Output`. -/
inductive SpawnResult where
  | binMissing
  | spawnError (msg : String)
  | completed (o : Output)
deriving DecidableEq

/-- Model of `YtDl::run` (`src/ytdl.rs`, lines 87–102): a spawn failure with kind
`NotFound` becomes `YtDlpNotFound`, any other spawn failure becomes
`Other`; a completed process with non-success status becomes
`YtDlpOutputError` carrying the whole captured output; success returns
the output. -/
def run (spawn : SpawnResult) : Except YtDlError Output :=
  match spawn with
  | .binMissing => .error .YtDlpNotFound
  | .spawnError m => .error (.Other m)
  | .completed o => if o.success then .ok o else .error (.YtDlpOutputError o)

/-- Does `hay` start with `needle`?  (Helper for `strContains`.) -/
def listStartsWith : List Char → List Char → Bool
  | _, [] => true
  | [], _ :: _ => false
  | a :: hay, b :: needle => a == b && listStartsWith hay needle

/-- Does `hay` contain `needle` as a contiguous run? -/
def listContainsSub (needle : List Char) : List Char → Bool
  | [] => listStartsWith [] needle
  | c :: rest => listStartsWith (c :: rest) needle || listContainsSub needle rest

/-- Rust `str::contains(pattern)` for a string pattern. -/
def strContains (hay needle : String) : Bool :=
  listContainsSub needle.data hay.data

/-- Model of `YtDl::map_not_found` (`src/ytdl.rs`, lines 104–119): a
`YtDlpOutputError` whose captured stderr contains the marker string is
reclassified as `ItemNotFound`; every other error (including the
marker-free output error, which is logged) passes through unchanged. -/
def map_not_found (err : YtDlError) (not_found_str : String) : YtDlError :=
  match err with
  | .YtDlpOutputError output =>
    if strContains output.stderr not_found_str then .ItemNotFound
    else .YtDlpOutputError output
  | e => e

/-- Uppercase hex digit, as the `urlencoding` crate emits. -/
def hexChar (n : Nat) : Char :=
  if n < 10 then Char.ofNat (48 + n) else Char.ofNat (55 + n)

/-- Bytes the `urlencoding` crate leaves untouched: ASCII alphanumerics
and `-`, `.`, `_`, `~`. -/
def isUrlSafeByte (b : Nat) : Bool :=
  (48 ≤ b && b ≤ 57) || (65 ≤ b && b ≤ 90) || (97 ≤ b && b ≤ 122) ||
    b == 45 || b == 46 || b == 95 || b == 126

/-- The UTF-8 bytes of a code point. -/
def utf8Bytes (n : Nat) : List Nat :=
  if n < 128 then [n]
  else if n < 2048 then [192 + n / 64, 128 + n % 64]
  else if n < 65536 then [224 + n / 4096, 128 + n / 64 % 64, 128 + n % 64]
  else [240 + n / 262144, 128 + n / 4096 % 64, 128 + n / 64 % 64, 128 + n % 64]

/-- Model of `urlencoding::encode`: percent-encode every UTF-8 byte outside the
unreserved set, with uppercase hex. -/
def urlencode (s : String) : String :=
  String.mk ((s.data.map fun c => utf8Bytes c.toNat).flatten.map (fun n =>
    if isUrlSafeByte n then [Char.ofNat n]
    else ['%', hexChar (n / 16), hexChar (n % 16)])).flatten

/-- Model of `YtDl::get_channel_url`. -/
def get_channel_url (channel_name page : String) : String :=
  "https://www.youtube.com/c/" ++ urlencode channel_name ++ "/" ++ urlencode page

/-- Model of `YtDl::get_user_url`. -/
def get_user_url (channel_name page : String) : String :=
  "https://www.youtube.com/user/" ++ urlencode channel_name ++ "/" ++ urlencode page

/-- A thumbnail of a channel.  In `src/ytdl.rs` the struct declares
`width: u16, height: u16`, but the selection code in
`src/podcast_proxy.rs` — the code all thumbnail claims point at — reads
the fields as options (`t.width.and(t.height).is_some()`,
`t.width.unwrap()`, `t.width.unwrap_or(0)`), i.e. the dimensions may be
absent; so they are modelled as optional u16-sized naturals. -/
structure Thumbnail where
  url : String
  width : Option Nat
  height : Option Nat
deriving DecidableEq

/-- Model of `struct Channel` from `src/ytdl.rs`.  `videos_url` defaults to `""`
under serde and is stamped by `get_channel_info`. -/
structure Channel where
  channel : String
  description : String
  thumbnails : List Thumbnail
  webpage_url : String
  videos_url : String
  epoch : Nat
deriving DecidableEq

/-- Model of `struct Video` from `src/ytdl.rs` (`duration` is serde-renamed from
`duration_string`). -/
structure Video where
  id : String
  title : String
  description : String
  upload_date : String
  uploader : String
  duration : String
deriving DecidableEq

/-- Model of `YtDl::run_get_channel_info` (`src/ytdl.rs`, lines 121–126): run
`yt-dlp -J <url>` and reclassify a failure whose stderr contains
`"HTTPError 404"` as not-found.  `rawRun` is the oracle giving the
outcome of spawning `yt-dlp` with a given argument list. -/
def run_get_channel_info (rawRun : List String → SpawnResult) (url : String) :
    Except YtDlError Output :=
  match run (rawRun ["-J", url]) with
  | .ok o => .ok o
  | .error e => .error (map_not_found e "HTTPError 404")

/-- The tail of `get_channel_info`: parse the tool's stdout as a
`Channel` (`serde_json::from_str`, modelled by the oracle
`parseChannel`; a parse failure is wrapped by
`.context("failed to parse ytdl output")` into an `Other` error) and
stamp `videos_url`. -/
def finishChannel (parseChannel : String → Option Channel) (o : Output)
    (vids_url : String) : Except YtDlError Channel :=
  match parseChannel o.stdout with
  | some ch => .ok { ch with videos_url := vids_url }
  | none => .error (.Other "failed to parse ytdl output")

/-- Model of `YtDl::get_channel_info` (`src/ytdl.rs`, lines 128–157): try the
`/c/<name>/about` channel-style URL; exactly when that fails as
`ItemNotFound`, retry with the `/user/<name>/about` user-style URL and
switch `vids_url` to the user-style videos URL; any other error is
returned as-is.  On success parse stdout and stamp whichever videos URL
was current. -/
def get_channel_info (rawRun : List String → SpawnResult)
    (parseChannel : String → Option Channel) (channel_name : String) :
    Except YtDlError Channel :=
  let channel_about_url := get_channel_url channel_name "about"
  let user_about_url := get_user_url channel_name "about"
  match run_get_channel_info rawRun channel_about_url with
  | .ok o => finishChannel parseChannel o (get_channel_url channel_name "videos")
  | .error .ItemNotFound =>
    match run_get_channel_info rawRun user_about_url with
    | .ok o => finishChannel parseChannel o (get_user_url channel_name "videos")
    | .error e => .error e
  | .error e => .error e

/-- The serde field names of `Video` in declaration order, as
`serde_introspect::<Video>()` yields them (the `duration` field is
renamed `duration_string`). -/
def videoFields : List String :=
  ["id", "title", "description", "upload_date", "uploader", "duration_string"]

/-- The `--print` output template `get_channel_videos` builds:
`{"id":%(id)j,...}` — one JSON object per line. -/
def fieldTemplate : String :=
  "\x7b" ++
    String.intercalate ","
      (videoFields.map fun f => "\"" ++ f ++ "\":%(" ++ f ++ ")j") ++
  "\x7d"

/-- Rust `str::lines()`: lines split at `\n`, with one `\r` stripped
before a `\n`; a final unterminated line is emitted as-is, and a
trailing line terminator produces no extra empty line.  The accumulator
holds the current line reversed. -/
def rustLinesAux : List Char → List Char → List String
  | [], cur => if cur.isEmpty then [] else [String.mk cur.reverse]
  | '\n' :: rest, cur =>
    (match cur with
     | '\r' :: cur' => String.mk cur'.reverse
     | _ => String.mk cur.reverse) :: rustLinesAux rest []
  | c :: rest, cur => rustLinesAux rest (c :: cur)

def rustLines (s : String) : List String :=
  rustLinesAux s.data []

/-- Parse the newline-delimited JSON video records
(`output.lines().map(|l| serde_json::from_str(l) ...).collect::<Result<_>>()`):
each line through the serde oracle `parseVid`, failing on the first
unparseable line with the `.context("couldn't parse ytdl output")`
error. -/
def parseVideoLines (parseVid : String → Option Video) (s : String) :
    Except YtDlError (List Video) :=
  (rustLines s).mapM fun l =>
    match parseVid l with
    | some v => Except.ok v
    | none => Except.error (.Other "couldn't parse ytdl output")

/-- The best-effort `fs::write(&cache_path, &out_str)` in
`get_channel_videos`: fails exactly when the oracle flag `writeOk` is
false. -/
def writeCacheOp (writeOk : Bool) : Except String Unit :=
  if writeOk then .ok () else .error "Failed to save cache"

/-- Model of `YtDl::get_channel_videos` (`src/ytdl.rs`, lines 159–213).
`cacheRead key ext` is the oracle for
`read_to_string(cache.get_path(key, ext))` — the content of the touched
cache file (the `get_path` touch/sweep side effects live in the cache
model; its error paths, which the code propagates, are not failure modes
of any claim and are elided).  On a non-empty cached string the content
is parsed directly; on an empty one the tool is run with the
field template and `--playlist-end <limit>` (limit defaulting to 5),
the raw stdout is written back to the cache best-effort (a write failure
is logged and ignored), and that same stdout is parsed. -/
def get_channel_videos (rawRun : List String → SpawnResult)
    (parseVid : String → Option Video)
    (cacheRead : List String → Option String → String)
    (writeOk : Bool) (channel_info : Channel) (limit : Option Int) :
    Except YtDlError (List Video) :=
  let lim := limit.getD 5
  let cached := cacheRead ["playlist", channel_info.channel] none
  if cached.isEmpty then
    match run (rawRun ["-S", "ext", "--print", fieldTemplate,
        "--playlist-end", toString lim, channel_info.videos_url]) with
    | .error e => .error e
    | .ok out =>
      let out_str := out.stdout
      match writeCacheOp writeOk with
      | .error _ => parseVideoLines parseVid out_str
      | .ok () => parseVideoLines parseVid out_str
  else
    parseVideoLines parseVid cached

/-- Model of `YtDl::download_video` (`src/ytdl.rs`, lines 215–232): run the tool
against the watch URL with the fixed format arguments, reclassifying a
failure whose stderr contains `"Video unavailable"` as not-found. -/
def download_video (rawRun : List String → SpawnResult) (id : String)
    (output_path : String) : Except YtDlError Unit :=
  let vid_url := "https://www.youtube.com/watch?v=" ++ urlencode id
  match run (rawRun ["--sponsorblock-remove", "all", "-S", "ext,height:720",
      "-o", output_path, vid_url]) with
  | .ok _ => .ok ()
  | .error e => .error (map_not_found e "Video unavailable")

/-! ## Feed assembly model (`src/podcast_proxy.rs`) -/

/-- Proleptic-Gregorian leap year. -/
def isLeapYear (y : Nat) : Bool :=
  (y % 4 == 0 && y % 100 != 0) || y % 400 == 0

def daysInMonth (y m : Nat) : Nat :=
  match m with
  | 1 => 31 | 2 => if isLeapYear y then 29 else 28
  | 3 => 31 | 4 => 30 | 5 => 31 | 6 => 30 | 7 => 31 | 8 => 31
  | 9 => 30 | 10 => 31 | 11 => 30 | 12 => 31
  | _ => 0

structure Date where
  year : Nat
  month : Nat
  day : Nat
deriving DecidableEq

def digitsToNat (cs : List Char) : Nat :=
  cs.foldl (fun a c => 10 * a + (c.toNat - 48)) 0

/-- Model of `NaiveDate::parse_from_str(s, "%Y%m%d")` — chrono library code, not
part of this repository; modelled from its contract as the spec states
it ("a strict `YYYYMMDD` calendar date"): exactly eight ASCII digits,
split 4/2/2 into year, month and day, accepted only when they form a
valid proleptic-Gregorian calendar date. -/
def parseDate (s : String) : Option Date :=
  let cs := s.data
  if cs.length == 8 && cs.all (fun c => c.isDigit) then
    let y := digitsToNat (cs.take 4)
    let m := digitsToNat ((cs.drop 4).take 2)
    let d := digitsToNat (cs.drop 6)
    if 1 ≤ m && m ≤ 12 && 1 ≤ d && d ≤ daysInMonth y m then
      some ⟨y, m, d⟩
    else none
  else none

/-- Days since 1970-01-01 of a proleptic-Gregorian date (the standard
days-from-civil computation chrono's day arithmetic agrees with). -/
def daysFromCivil (y m d : Nat) : Int :=
  let yAdj : Int := if m ≤ 2 then (y : Int) - 1 else (y : Int)
  let era : Int := Int.fdiv yAdj 400
  let yoe : Int := yAdj - era * 400
  let mp : Int := ((m : Int) + 9) % 12
  let doy : Int := (153 * mp + 2) / 5 + (d : Int) - 1
  let doe : Int := yoe * 365 + yoe / 4 - yoe / 100 + doy
  era * 146097 + doe - 719468

/-- Model of `Utc.from_utc_date(&raw_date).and_hms(0, 0, 0)` as a Unix timestamp
in seconds: midnight UTC of the parsed date.  All feed times are
modelled in whole seconds (upload dates are midnights and the delay is a
whole number of days, so sub-second precision decides nothing). -/
def dateSecs (dt : Date) : Int :=
  86400 * daysFromCivil dt.year dt.month dt.day

/-- The upload timestamp of a video whose date parses (0 otherwise; only
used under a parse-success hypothesis). -/
def vidDateSecs (v : Video) : Int :=
  match parseDate v.upload_date with
  | some dt => dateSecs dt
  | none => 0

/-- One `<item>` of the feed, with the fields `get_feed` sets
(`pub_date` kept as the timestamp the Rust code renders with
`to_rfc2822`). -/
structure RssItem where
  title : String
  description : String
  enclosure_url : String
  enclosure_length : String
  enclosure_mime : String
  guid : String
  pub_date : Int
  itunes_author : String
  itunes_duration : String
  itunes_subtitle : String
  itunes_summary : String
deriving DecidableEq

/-- The channel `<image>` built from the selected thumbnail
(width/height via `unwrap_or(0)`, rendered as strings by the Rust
code). -/
structure RssImage where
  title : String
  url : String
  link : String
  width : Nat
  height : Nat
deriving DecidableEq

/-- The feed document, with the channel-level fields `get_feed` sets. -/
structure Feed where
  title : String
  link : String
  description : String
  itunes_author : String
  itunes_block : String
  itunes_subtitle : String
  items : List RssItem
  pub_date : Int
  image : Option RssImage
deriving DecidableEq

/-- The only failure `get_feed`'s assembly loop produces in this model:
`NaiveDate::parse_from_str(...).context("bad upload date")?`.  (The
`rss` builder `build()` calls cannot fail here: every builder field is
set.) -/
inductive FeedError where
  | badUploadDate (raw : String)
deriving DecidableEq

/-- Constant `ARBITRARY_SIZE`, the placeholder enclosure length. -/
def ARBITRARY_SIZE : Nat := 1073741824

/-- The item built for one surviving video (`EnclosureBuilder`,
`GuidBuilder`, `ITunesItemExtensionBuilder`, `ItemBuilder` in
`get_feed`). -/
def mkItem (base_url : String) (v : Video) (dsec : Int) : RssItem :=
  { title := v.title
    description := v.description
    enclosure_url := base_url ++ v.id
    enclosure_length := toString ARBITRARY_SIZE
    enclosure_mime := "video/mp4"
    guid := v.id
    pub_date := dsec
    itunes_author := v.uploader
    itunes_duration := v.duration
    itunes_subtitle := v.description
    itunes_summary := v.description }

/-- Constant `u32::MAX`; `as u32` on an f32 saturates here (and a NaN casts
to 0). -/
def u32Max : Nat := 4294967295

/-- Fuel-bounded `⌊log₂ n⌋` (exact whenever `n < 2^fuel`; `0` maps
to `0`).  Structural so that the kernel can evaluate it. -/
def ilog2Fuel : Nat → Nat → Nat
  | 0, _ => 0
  | fuel + 1, n => if 2 ≤ n then ilog2Fuel fuel (n / 2) + 1 else 0

/-- Round the nonnegative rational `num / den` (`den ≠ 0`) to the
nearest integer, ties to even — the IEEE-754 default rounding. -/
def roundNearestEven (num den : Nat) : Nat :=
  let q := num / den
  let r := num % den
  if 2 * r > den then q + 1
  else if 2 * r < den then q
  else if q % 2 == 0 then q else q + 1

/-- IEEE-754 binary32 division `n / d` for positive integers `n`, `d`
that are themselves exact in f32 (every u16 is, being below `2^24`):
the correctly rounded (nearest-even) quotient, as a normalized
significand–exponent pair `(m, e)` of value `m · 2^e` with
`2^23 ≤ m < 2^24`.  The exponent of the exact quotient is
`⌊log₂ (n/d)⌋ = ⌊log₂ ⌊n·2^64 / d⌋⌋ − 64`; the quotient is scaled by
`2^(23−exp)` into `[2^23, 2^24)` and rounded, carrying into the next
binade when rounding reaches `2^24`. -/
def f32Div (n d : Nat) : Nat × Int :=
  let e : Int := (ilog2Fuel 192 (n * 2 ^ 64 / d) : Int) - 64
  let m :=
    if 0 ≤ 23 - e then roundNearestEven (n * 2 ^ (23 - e).toNat) d
    else roundNearestEven n (d * 2 ^ (e - 23).toNat)
  if m == 2 ^ 24 then (2 ^ 23, e - 22) else (m, e - 23)

/-- IEEE-754 binary32 multiplication of the normalized positive value
`m · 2^e` by `100.0` (exact in f32), correctly rounded to
nearest-even.  The exact product `m·100` has 30 or 31 bits, so it is
shifted back into a 24-bit significand with one rounding. -/
def f32Mul100 : Nat × Int → Nat × Int
  | (m, e) =>
    let p := m * 100
    let k := ilog2Fuel 64 p
    let s := k - 23
    let m2 := roundNearestEven p (2 ^ s)
    if m2 == 2 ^ 24 then (2 ^ 23, e + s + 1) else (m2, e + s)

/-- Rust `as u32` on the positive finite f32 value `m · 2^e`: truncate
toward zero, saturating at `u32::MAX`. -/
def f32ToU32 : Nat × Int → Nat
  | (m, e) =>
    if 0 ≤ e then min u32Max (m * 2 ^ e.toNat)
    else min u32Max (m / 2 ^ (-e).toNat)

/-- Models `(t.width.unwrap() as f32 / t.height.unwrap() as f32 * 100.0)
.abs() as u32` exactly.  The struct declares the dimensions `u16`, so
`as f32` on them is exact; `x / 0.0` is `+∞` for `x > 0` (saturating to
`u32::MAX` under `as u32`) and `0.0 / 0.0` is NaN (casting to `0`);
`0 / h` is `0.0`; otherwise the value is one correctly rounded binary32
division followed by one correctly rounded binary32 multiplication
by `100.0`, truncated toward zero by the saturating cast
(`.abs()` is the identity on these nonnegative results). -/
def ratioTimes100 (w h : Nat) : Nat :=
  if h == 0 then (if w == 0 then 0 else u32Max)
  else if w == 0 then 0
  else f32ToU32 (f32Mul100 (f32Div w h))

/-- The sort key `100 - (...) as u32` of the thumbnail selection in
`get_feed` (`src/podcast_proxy.rs`, lines 132–136).  The subtraction is
`u32` arithmetic: whenever the ratio term exceeds 100 (a thumbnail wider
than tall), it wraps around `2^32` (release-profile semantics of the
shipped binary; a debug build would panic on the underflow). -/
def thumbKey (w h : Nat) : Nat :=
  (100 + (u32Max + 1) - ratioTimes100 w h) % (u32Max + 1)

/-- Rust `Iterator::min_by_key`: among elements of equally minimum key
the *first* one is returned (`min_by` keeps the earlier element on
`Less | Equal`). -/
def min_by_key {α : Type} : List (Nat × α) → Option (Nat × α)
  | [] => none
  | x :: xs =>
    match min_by_key xs with
    | none => some x
    | some y => if x.1 ≤ y.1 then some x else some y

/-- The `squarest_thumbnail` selection of `get_feed`: keep thumbnails
with both dimensions present (`t.width.and(t.height).is_some()` — no
nonzero check), key each with `thumbKey`, take the minimum (first wins
on ties). -/
def squarest_thumbnail (ts : List Thumbnail) : Option (Nat × Thumbnail) :=
  min_by_key ((ts.filter fun t => t.width.isSome && t.height.isSome).map
    fun t => (thumbKey (t.width.getD 0) (t.height.getD 0), t))

/-- The video loop of `get_feed` (`src/podcast_proxy.rs`, lines 53–105)
as explicit state passing: `oldest` is `oldest_date` (initialised to
`Utc::now()` by the caller), `acc` the reversed `rss_items`.  Per video:
parse the date (failure aborts the whole build), fold the date into
`oldest` *before* the delay check, then skip the video when
`now - date < delay_days · 86400` seconds (`Duration::days`), else emit
its item.  `Utc::now()` is modelled as the single instant `now`. -/
def processVids (now : Int) (base_url : String) (delay_days : Nat) :
    List Video → Int → List RssItem → Except FeedError (Int × List RssItem)
  | [], oldest, acc => .ok (oldest, acc.reverse)
  | v :: rest, oldest, acc =>
    match parseDate v.upload_date with
    | none => .error (.badUploadDate v.upload_date)
    | some date =>
      let dsec := dateSecs date
      let oldest' := if dsec < oldest then dsec else oldest
      if now - dsec < (delay_days : Int) * 86400 then
        processVids now base_url delay_days rest oldest' acc
      else
        processVids now base_url delay_days rest oldest'
          (mkItem base_url v dsec :: acc)

/-- The surviving-video test: the video is kept iff its age is at least
the delay. -/
def keepVideo (now : Int) (delay_days : Nat) (v : Video) : Bool :=
  !(now - vidDateSecs v < (delay_days : Int) * 86400)

/-- Model of `PodcastProxy::get_feed` (`src/podcast_proxy.rs`, lines 32–154),
from the point where channel info and videos are in hand (the fetching
steps are `get_channel_info` / `get_channel_videos` above): run the
video loop with `oldest_date` starting at `now`, then assemble the
channel: title/author from the channel name, `itunes:block` `"Yes"`,
description/subtitle from the channel description, `pubDate` = the
tracked oldest date, and the image from `squarest_thumbnail` (absent
when no thumbnail qualifies). -/
def get_feed (now : Int) (media_base_url : String) (channel : Channel)
    (vids : List Video) (delay_days : Nat) : Except FeedError Feed :=
  match processVids now media_base_url delay_days vids now [] with
  | .error e => .error e
  | .ok (oldest, items) =>
    .ok {
      title := channel.channel
      link := channel.webpage_url
      description := channel.description
      itunes_author := channel.channel
      itunes_block := "Yes"
      itunes_subtitle := channel.description
      items := items
      pub_date := oldest
      image := (squarest_thumbnail channel.thumbnails).map fun kt =>
        { title := channel.channel
          url := kt.2.url
          link := kt.2.url
          width := kt.2.width.getD 0
          height := kt.2.height.getD 0 } }

/-! ### The thumbnail rule as claim C1 words it

For the refinement comparison only: this definition follows the *claim's*
wording, not the source. -/

/-- Modelled from the claim's words, NOT the source: the exact rational
`|100 − 100·width/height|`. -/
def claimThumbKey (w h : Nat) : ℚ :=
  |100 - 100 * (w : ℚ) / (h : ℚ)|

/-- Modelled from the claim's words, NOT the source: minimum by key with
the *first* minimal element winning ties. -/
def minByKeyFirst {α : Type} : List (ℚ × α) → Option (ℚ × α)
  | [] => none
  | x :: xs =>
    match minByKeyFirst xs with
    | none => some x
    | some y => if x.1 ≤ y.1 then some x else some y

/-- Modelled from the claim's words, NOT the source: select among
thumbnails whose width and height are both present and nonzero the one
minimizing `|100 − 100·w/h|`, first minimal match winning ties. -/
def claimSquarestThumbnail (ts : List Thumbnail) : Option (ℚ × Thumbnail) :=
  minByKeyFirst
    ((ts.filter fun t =>
        t.width.isSome && t.height.isSome &&
          t.width.getD 0 != 0 && t.height.getD 0 != 0).map
      fun t => (claimThumbKey (t.width.getD 0) (t.height.getD 0), t))

/-! ## Lemmas about the cleanup sweep -/

/-- When no deletion fails, every file the sweep keeps is fresh. -/
theorem clean_keeps_only_fresh (now ttl : Nat) :
    (∀ e, entryNoFails e = true → ∀ e', cleanEntry now ttl e = some e' →
        entryFresh now ttl e' = true) ∧
    (∀ es, childrenNoFails es = true →
        childrenFresh now ttl (cleanChildren now ttl es) = true) := by
  refine cleanEntry.mutual_induct now ttl
    (fun e => entryNoFails e = true → ∀ e', cleanEntry now ttl e = some e' →
      entryFresh now ttl e' = true)
    (fun es => childrenNoFails es = true →
      childrenFresh now ttl (cleanChildren now ttl es) = true)
    ?_ ?_ ?_ ?_ ?_ ?_ ?_ ?_
  · intro n m hexp hnf
    simp [entryNoFails] at hnf
  · intro n m fd hexp hfd hnf e' he'
    simp [cleanEntry, hexp, Bool.eq_false_iff.mpr hfd] at he'
  · intro n m fd hexp hnf e' he'
    simp [cleanEntry, hexp] at he'
    subst he'
    simp [entryFresh]
    omega
  · intro n cs hcs hnf e' he'
    simp [cleanEntry, hcs] at he'
  · intro n cs hcs ih hnf e' he'
    simp [cleanEntry, hcs] at he'
    subst he'
    simp [entryNoFails] at hnf
    simpa [entryFresh] using ih hnf
  · intro _
    simp [cleanChildren, childrenFresh]
  · intro e es he ihe ihes hnf
    simp [childrenNoFails] at hnf
    simpa [cleanChildren, he] using ihes hnf.2
  · intro e es e' he ihe ihes hnf
    simp [childrenNoFails] at hnf
    simp [cleanChildren, he, childrenFresh]
    exact ⟨ihe hnf.1 e' he, ihes hnf.2⟩

/-- A tree with no expired file and no empty directory is left untouched
by the sweep. -/
theorem clean_untouched (now ttl : Nat) :
    (∀ e, entryFresh now ttl e = true → entryNoEmptyDir e = true →
        cleanEntry now ttl e = some e) ∧
    (∀ es, childrenFresh now ttl es = true → childrenNoEmptyDir es = true →
        cleanChildren now ttl es = es) := by
  refine cleanEntry.mutual_induct now ttl
    (fun e => entryFresh now ttl e = true → entryNoEmptyDir e = true →
      cleanEntry now ttl e = some e)
    (fun es => childrenFresh now ttl es = true → childrenNoEmptyDir es = true →
      cleanChildren now ttl es = es)
    ?_ ?_ ?_ ?_ ?_ ?_ ?_ ?_
  · intro n m hexp hfr
    simp [entryFresh] at hfr
    omega
  · intro n m fd hexp hfd hfr
    simp [entryFresh] at hfr
    omega
  · intro n m fd hexp hfr hne
    simp [cleanEntry, hexp]
  · intro n cs hcs hfr hne
    simp [entryNoEmptyDir, hcs] at hne
  · intro n cs hcs ih hfr hne
    simp [entryFresh] at hfr
    simp [entryNoEmptyDir] at hne
    simp [cleanEntry, hcs, ih hfr hne.2]
  · intro _ _
    simp [cleanChildren]
  · intro e es he ihe ihes hfr hne
    simp [childrenFresh] at hfr
    simp [childrenNoEmptyDir] at hne
    rw [ihe hfr.1 hne.1] at he
    cases he
  · intro e es e' he ihe ihes hfr hne
    simp [childrenFresh] at hfr
    simp [childrenNoEmptyDir] at hne
    have := ihe hfr.1 hne.1
    rw [this] at he
    cases he
    simp [cleanChildren, this, ihes hfr.2 hne.2]

/-- The sweep with the fallible deletion made explicit never fails, and
computes the same result as the pure sweep. -/
theorem cleanE_eq_clean (now ttl : Nat) :
    (∀ e, cleanEntryE now ttl e = Except.ok (cleanEntry now ttl e)) ∧
    (∀ es, cleanChildrenE now ttl es = Except.ok (cleanChildren now ttl es)) := by
  refine cleanEntry.mutual_induct now ttl
    (fun e => cleanEntryE now ttl e = Except.ok (cleanEntry now ttl e))
    (fun es => cleanChildrenE now ttl es = Except.ok (cleanChildren now ttl es))
    ?_ ?_ ?_ ?_ ?_ ?_ ?_ ?_
  · intro n m hexp
    simp [cleanEntryE, cleanEntry, hexp, removeFileOp]
  · intro n m fd hexp hfd
    simp [cleanEntryE, cleanEntry, hexp, removeFileOp, Bool.eq_false_iff.mpr hfd]
  · intro n m fd hexp
    simp [cleanEntryE, cleanEntry, hexp]
  · intro n cs hcs
    simp [cleanEntryE, cleanEntry, hcs]
  · intro n cs hcs ih
    simp [cleanEntryE, cleanEntry, hcs, ih]
  · simp [cleanChildrenE, cleanChildren]
  · intro e es he ihe ihes
    simp [cleanChildrenE, cleanChildren, ihe, he, ihes]
  · intro e es e' he ihe ihes
    simp [cleanChildrenE, cleanChildren, ihe, he, ihes]

/-! ## Claim theorems: the cache sweep -/

/-- C2 (counterexample): the claim as stated is false — a directory
whose single file expired during the very sweep is *not* removed: its
emptiness was decided at scan time, before its file was deleted, so the
completed sweep leaves an empty directory under the root.  With
TTL 86400 and a file of age 90000 the sweep turns
`[dir "a" [file "f"]]` into `[dir "a" []]`, which contains a
zero-entry directory. -/
theorem C2_counterexample :
    cleanChildren 90000 86400 [Entry.dir "a" [Entry.file "f" 0 false]]
      = [Entry.dir "a" []] ∧
    childrenNoEmptyDir [Entry.dir "a" []] = false := by
  exact ⟨rfl, rfl⟩

/-- C2 (amended): after a completed `clean()` sweep in which every
deletion succeeds, (1) no remaining file under the root has age
exceeding the TTL; (2) a tree with no expired file and no empty
directory is left entirely untouched; (3) a directory that had zero
entries when it was scanned is removed.  (A directory that only *becomes*
empty during the sweep, because all its files expired, is left in
place — see the counterexample — and is only removed by a later
sweep.) -/
theorem C2_clean_sweep (now ttl : Nat) (es : List Entry)
    (hnf : childrenNoFails es = true) :
    childrenFresh now ttl (cleanChildren now ttl es) = true ∧
    (childrenFresh now ttl es = true → childrenNoEmptyDir es = true →
      cleanChildren now ttl es = es) ∧
    (∀ n : String, cleanEntry now ttl (Entry.dir n []) = none) := by
  refine ⟨(clean_keeps_only_fresh now ttl).2 es hnf,
    fun hfr hne => (clean_untouched now ttl).2 es hfr hne,
    fun n => by simp [cleanEntry]⟩

theorem C2_clean_sweep_witness :
    childrenNoFails [Entry.dir "a" [Entry.file "f" 100 false]] = true ∧
    (childrenFresh 200 86400
        (cleanChildren 200 86400 [Entry.dir "a" [Entry.file "f" 100 false]]) = true ∧
      (childrenFresh 200 86400 [Entry.dir "a" [Entry.file "f" 100 false]] = true →
        childrenNoEmptyDir [Entry.dir "a" [Entry.file "f" 100 false]] = true →
        cleanChildren 200 86400 [Entry.dir "a" [Entry.file "f" 100 false]]
          = [Entry.dir "a" [Entry.file "f" 100 false]]) ∧
      (∀ n : String, cleanEntry 200 86400 (Entry.dir n []) = none)) :=
  ⟨rfl, C2_clean_sweep 200 86400 [Entry.dir "a" [Entry.file "f" 100 false]] rfl⟩

/-- C9 (confirmed): `clean()` seeds its worklist with the cache root
itself and removes any directory found with zero entries, the root
included: the sweep deletes the root directory exactly when the root is
empty — directory pruning is not restricted to proper subdirectories. -/
theorem C9_root_pruned (now ttl : Nat) (es : List Entry) :
    cleanRoot now ttl es = none ↔ es = [] := by
  cases es <;> simp [cleanRoot]

/-- C4 (confirmed): a failed deletion of an individual expired cache
file never escapes the sweep — the sweep with the fallible
`fs::remove_file` modelled explicitly always returns `ok`, and computes
exactly the pure sweep result — and `get_channel_videos` returns the
same result whether the best-effort playlist cache write succeeds or
fails, so neither failure can surface as an error of the triggering
request. -/
theorem C4_swallowed_failures :
    (∀ now ttl : Nat, ∀ es : List Entry,
      cleanChildrenE now ttl es = Except.ok (cleanChildren now ttl es)) ∧
    (∀ (rawRun : List String → SpawnResult) (parseVid : String → Option Video)
        (cacheRead : List String → Option String → String)
        (ch : Channel) (lim : Option Int) (w₁ w₂ : Bool),
      get_channel_videos rawRun parseVid cacheRead w₁ ch lim =
        get_channel_videos rawRun parseVid cacheRead w₂ ch lim) := by
  constructor
  · intro now ttl es
    exact (cleanE_eq_clean now ttl).2 es
  · intro rawRun parseVid cacheRead ch lim w₁ w₂
    cases w₁ <;> cases w₂ <;> rfl

/-! ## Claim theorems: failure classification and fetching -/

/-- C5 (confirmed): failure to execute the binary yields
`YtDlpNotFound` (distinct from `ItemNotFound`); a non-zero exit whose
stderr contains the operation's marker (`"HTTPError 404"` for channel
lookups, `"Video unavailable"` for video downloads) yields
`ItemNotFound`; any other non-zero exit yields `YtDlpOutputError`
carrying the whole captured output. -/
theorem C5_failure_classification (rawRun : List String → SpawnResult)
    (url id path : String) :
    ((YtDlError.YtDlpNotFound ≠ YtDlError.ItemNotFound) ∧
      ∀ args, rawRun args = .binMissing →
        run (rawRun args) = .error .YtDlpNotFound) ∧
    (rawRun ["-J", url] = .binMissing →
      run_get_channel_info rawRun url = .error .YtDlpNotFound) ∧
    (∀ o, rawRun ["-J", url] = .completed o → o.success = false →
      strContains o.stderr "HTTPError 404" = true →
      run_get_channel_info rawRun url = .error .ItemNotFound) ∧
    (∀ o, rawRun ["-J", url] = .completed o → o.success = false →
      strContains o.stderr "HTTPError 404" = false →
      run_get_channel_info rawRun url = .error (.YtDlpOutputError o)) ∧
    (∀ o, rawRun ["--sponsorblock-remove", "all", "-S", "ext,height:720",
          "-o", path, "https://www.youtube.com/watch?v=" ++ urlencode id]
        = .completed o → o.success = false →
      strContains o.stderr "Video unavailable" = true →
      download_video rawRun id path = .error .ItemNotFound) ∧
    (∀ o, rawRun ["--sponsorblock-remove", "all", "-S", "ext,height:720",
          "-o", path, "https://www.youtube.com/watch?v=" ++ urlencode id]
        = .completed o → o.success = false →
      strContains o.stderr "Video unavailable" = false →
      download_video rawRun id path = .error (.YtDlpOutputError o)) := by
  refine ⟨⟨by simp, fun args h => by simp [run, h]⟩, ?_, ?_, ?_, ?_, ?_⟩
  · intro h
    simp [run_get_channel_info, run, h, map_not_found]
  · intro o h hs hc
    simp [run_get_channel_info, run, h, hs, map_not_found, hc]
  · intro o h hs hc
    simp [run_get_channel_info, run, h, hs, map_not_found, hc]
  · intro o h hs hc
    simp [download_video, run, h, hs, map_not_found, hc]
  · intro o h hs hc
    simp [download_video, run, h, hs, map_not_found, hc]

theorem C5_failure_classification_witness :
    run_get_channel_info (fun _ => .completed ⟨false, "", "ERROR: HTTPError 404: Not Found"⟩) "u"
      = .error .ItemNotFound ∧
    download_video (fun _ => .completed ⟨false, "", "ERROR: Video unavailable"⟩) "v" "/p"
      = .error .ItemNotFound ∧
    run_get_channel_info (fun _ => .completed ⟨false, "out", "other failure"⟩) "u"
      = .error (.YtDlpOutputError ⟨false, "out", "other failure"⟩) ∧
    run_get_channel_info (fun _ => .binMissing) "u" = .error .YtDlpNotFound := by
  refine ⟨?_, ?_, ?_, ?_⟩
  · exact (C5_failure_classification (fun _ => .completed ⟨false, "", "ERROR: HTTPError 404: Not Found"⟩)
      "u" "v" "/p").2.2.1 _ rfl rfl (by decide)
  · exact (C5_failure_classification (fun _ => .completed ⟨false, "", "ERROR: Video unavailable"⟩)
      "u" "v" "/p").2.2.2.2.1 _ rfl rfl (by decide)
  · exact (C5_failure_classification (fun _ => .completed ⟨false, "out", "other failure"⟩)
      "u" "v" "/p").2.2.2.1 _ rfl rfl (by decide)
  · exact (C5_failure_classification (fun _ => .binMissing) "u" "v" "/p").2.1 rfl

/-- C6 (confirmed): `get_channel_info` tries the channel-style `/c/`
URL first; exactly when that attempt classifies as `ItemNotFound` does
it retry with the user-style `/user/` URL (and then a second failure
propagates); any non-not-found first failure is returned immediately,
without consulting the tool about the user-style URL (formalised as:
the result agrees for any two oracles that agree on the channel-style
request); on success the stamped `videos_url` matches whichever
convention succeeded. -/
theorem C6_channel_lookup_fallback (rawRun : List String → SpawnResult)
    (parseChannel : String → Option Channel) (name : String) :
    (∀ o ch, run_get_channel_info rawRun (get_channel_url name "about") = .ok o →
      parseChannel o.stdout = some ch →
      get_channel_info rawRun parseChannel name =
        .ok { ch with videos_url := get_channel_url name "videos" }) ∧
    (∀ o ch,
      run_get_channel_info rawRun (get_channel_url name "about") = .error .ItemNotFound →
      run_get_channel_info rawRun (get_user_url name "about") = .ok o →
      parseChannel o.stdout = some ch →
      get_channel_info rawRun parseChannel name =
        .ok { ch with videos_url := get_user_url name "videos" }) ∧
    (∀ e',
      run_get_channel_info rawRun (get_channel_url name "about") = .error .ItemNotFound →
      run_get_channel_info rawRun (get_user_url name "about") = .error e' →
      get_channel_info rawRun parseChannel name = .error e') ∧
    (∀ e, run_get_channel_info rawRun (get_channel_url name "about") = .error e →
      e ≠ .ItemNotFound →
      get_channel_info rawRun parseChannel name = .error e) ∧
    (∀ rawRun' : List String → SpawnResult,
      rawRun ["-J", get_channel_url name "about"] =
        rawRun' ["-J", get_channel_url name "about"] →
      run_get_channel_info rawRun (get_channel_url name "about") ≠ .error .ItemNotFound →
      get_channel_info rawRun parseChannel name =
        get_channel_info rawRun' parseChannel name) := by
  refine ⟨?_, ?_, ?_, ?_, ?_⟩
  · intro o ch h1 h2
    simp [get_channel_info, h1, finishChannel, h2]
  · intro o ch h1 h2 h3
    simp [get_channel_info, h1, h2, finishChannel, h3]
  · intro e' h1 h2
    simp [get_channel_info, h1, h2]
  · intro e h1 hne
    cases e with
    | ItemNotFound => exact absurd rfl hne
    | YtDlpNotFound => simp [get_channel_info, h1]
    | YtDlpOutputError o => simp [get_channel_info, h1]
    | Other m => simp [get_channel_info, h1]
  · intro rawRun' hagree hnotnf
    have hsc : run_get_channel_info rawRun' (get_channel_url name "about")
        = run_get_channel_info rawRun (get_channel_url name "about") := by
      unfold run_get_channel_info
      rw [hagree]
    simp only [get_channel_info, hsc]
    cases hX : run_get_channel_info rawRun (get_channel_url name "about") with
    | ok o => rfl
    | error e =>
      cases e with
      | ItemNotFound => exact absurd hX hnotnf
      | YtDlpNotFound => rfl
      | YtDlpOutputError o => rfl
      | Other m => rfl

theorem C6_channel_lookup_fallback_witness :
    get_channel_info
        (fun args =>
          if args = ["-J", get_channel_url "n" "about"] then
            .completed ⟨false, "", "HTTPError 404"⟩
          else .completed ⟨true, "CJSON", ""⟩)
        (fun s => if s = "CJSON" then some ⟨"c", "d", [], "w", "", 7⟩ else none)
        "n"
      = .ok ⟨"c", "d", [], "w", get_user_url "n" "videos", 7⟩ := by
  exact (C6_channel_lookup_fallback
      (fun args =>
        if args = ["-J", get_channel_url "n" "about"] then
          .completed ⟨false, "", "HTTPError 404"⟩
        else .completed ⟨true, "CJSON", ""⟩)
      (fun s => if s = "CJSON" then some ⟨"c", "d", [], "w", "", 7⟩ else none)
      "n").2.1 ⟨true, "CJSON", ""⟩ ⟨"c", "d", [], "w", "", 7⟩
    rfl rfl (by decide)

/-- C7 (confirmed): `get_channel_videos` reads the cache file at key
`["playlist", channel.channel]` with no extension (the result depends on
the cache oracle only at that key); a non-empty cached content is parsed
as newline-delimited JSON with no tool invocation (the result is
independent of the tool oracle); an empty content leads to one tool
invocation whose argument list carries `--playlist-end <limit>` with the
limit defaulting to 5, whose stdout is then parsed. -/
theorem C7_playlist_cache (rawRun : List String → SpawnResult)
    (parseVid : String → Option Video)
    (cacheRead : List String → Option String → String)
    (writeOk : Bool) (ch : Channel) (lim : Option Int) :
    (∀ cacheRead' : List String → Option String → String,
      cacheRead ["playlist", ch.channel] none =
        cacheRead' ["playlist", ch.channel] none →
      get_channel_videos rawRun parseVid cacheRead writeOk ch lim =
        get_channel_videos rawRun parseVid cacheRead' writeOk ch lim) ∧
    ((cacheRead ["playlist", ch.channel] none).isEmpty = false →
      get_channel_videos rawRun parseVid cacheRead writeOk ch lim =
        parseVideoLines parseVid (cacheRead ["playlist", ch.channel] none) ∧
      ∀ rawRun' : List String → SpawnResult,
        get_channel_videos rawRun parseVid cacheRead writeOk ch lim =
          get_channel_videos rawRun' parseVid cacheRead writeOk ch lim) ∧
    ((cacheRead ["playlist", ch.channel] none).isEmpty = true →
      ∀ o, rawRun ["-S", "ext", "--print", fieldTemplate,
          "--playlist-end", toString (lim.getD 5), ch.videos_url] = .completed o →
        o.success = true →
        get_channel_videos rawRun parseVid cacheRead writeOk ch lim =
          parseVideoLines parseVid o.stdout) := by
  refine ⟨?_, ?_, ?_⟩
  · intro cacheRead' h
    simp only [get_channel_videos, h]
  · intro hne
    constructor
    · simp [get_channel_videos, hne]
    · intro rawRun'
      simp [get_channel_videos, hne]
  · intro hemp o ho hs
    cases writeOk <;>
      simp [get_channel_videos, hemp, ho, run, hs, writeCacheOp]

theorem C7_playlist_cache_witness :
    (get_channel_videos (fun _ => .binMissing)
        (fun l => if l = "REC" then some ⟨"i", "t", "d", "20210101", "u", "du"⟩ else none)
        (fun k _ => if k = ["playlist", "c"] then "REC" else "")
        true ⟨"c", "", [], "", "vurl", 0⟩ none =
      parseVideoLines
        (fun l => if l = "REC" then some ⟨"i", "t", "d", "20210101", "u", "du"⟩ else none)
        ((fun (k : List String) (_ : Option String) =>
            if k = ["playlist", "c"] then "REC" else "") ["playlist", "c"] none)) ∧
    (get_channel_videos (fun _ => .completed ⟨true, "REC", ""⟩)
        (fun l => if l = "REC" then some ⟨"i", "t", "d", "20210101", "u", "du"⟩ else none)
        (fun _ _ => "") true ⟨"c", "", [], "", "vurl", 0⟩ none =
      parseVideoLines
        (fun l => if l = "REC" then some ⟨"i", "t", "d", "20210101", "u", "du"⟩ else none)
        "REC") := by
  constructor
  · exact ((C7_playlist_cache (fun _ => .binMissing)
      (fun l => if l = "REC" then some ⟨"i", "t", "d", "20210101", "u", "du"⟩ else none)
      (fun k _ => if k = ["playlist", "c"] then "REC" else "")
      true ⟨"c", "", [], "", "vurl", 0⟩ none).2.1 (by decide)).1
  · exact (C7_playlist_cache (fun _ => .completed ⟨true, "REC", ""⟩)
      (fun l => if l = "REC" then some ⟨"i", "t", "d", "20210101", "u", "du"⟩ else none)
      (fun _ _ => "") true ⟨"c", "", [], "", "vurl", 0⟩ none).2.2 (by decide)
      ⟨true, "REC", ""⟩ rfl rfl

/-! ## Lemmas about the feed assembly -/

theorem min_by_key_eq_none_iff {α : Type} (l : List (Nat × α)) :
    min_by_key l = none ↔ l = [] := by
  cases l with
  | nil => simp [min_by_key]
  | cons x xs =>
    simp only [min_by_key]
    cases min_by_key xs
    · simp
    · simp only [List.cons_ne_nil, iff_false]
      split <;> simp

/-- Characterisation of `min_by_key`: the selected element splits the
list, every earlier element has a *strictly* greater key, and every
later element has a `≥` key (the first minimal element wins). -/
theorem min_by_key_spec {α : Type} (l : List (Nat × α)) :
    ∀ x : Nat × α, min_by_key l = some x →
    ∃ pre post, l = pre ++ x :: post ∧
      (∀ y ∈ pre, x.1 < y.1) ∧ (∀ y ∈ post, x.1 ≤ y.1) := by
  induction l with
  | nil => intro x h; simp [min_by_key] at h
  | cons a t ih =>
    intro x h
    simp only [min_by_key] at h
    cases ht : min_by_key t with
    | none =>
      simp only [ht] at h
      have hx : a = x := Option.some.inj h
      subst hx
      have : t = [] := (min_by_key_eq_none_iff t).mp ht
      subst this
      exact ⟨[], [], rfl, by simp, by simp⟩
    | some y =>
      simp only [ht] at h
      obtain ⟨p, s, hts, hpre, hpost⟩ := ih y ht
      by_cases hle : a.1 ≤ y.1
      · rw [if_pos hle] at h
        have hx : a = x := Option.some.inj h
        subst hx
        refine ⟨[], t, rfl, by simp, ?_⟩
        intro z hz
        rw [hts] at hz
        rcases List.mem_append.mp hz with hz | hz
        · exact le_of_lt (lt_of_le_of_lt hle (hpre z hz))
        · rcases List.mem_cons.mp hz with hz | hz
          · rw [hz]; exact hle
          · exact le_trans hle (hpost z hz)
      · rw [if_neg hle] at h
        have hx : y = x := Option.some.inj h
        subst hx
        refine ⟨a :: p, s, by rw [hts]; rfl, ?_, hpost⟩
        intro z hz
        rcases List.mem_cons.mp hz with hz | hz
        · rw [hz]; exact lt_of_not_le hle
        · exact hpre z hz

/-- Peeling a `map` off an append-with-middle decomposition. -/
theorem map_eq_append_cons {α β : Type} (f : α → β) :
    ∀ (l : List α) (p : List β) (b : β) (s : List β), l.map f = p ++ b :: s →
    ∃ p' x s', l = p' ++ x :: s' ∧ p'.map f = p ∧ f x = b ∧ s'.map f = s := by
  intro l
  induction l with
  | nil => intro p b s h; simp at h
  | cons a t ih =>
    intro p b s h
    cases p with
    | nil =>
      simp only [List.map_cons, List.nil_append] at h
      exact ⟨[], a, t, rfl, rfl, (List.cons.inj h).1, (List.cons.inj h).2⟩
    | cons q ps =>
      simp only [List.map_cons, List.cons_append, List.cons.injEq] at h
      obtain ⟨p', x, s', hl, hp, hb, hs⟩ := ih ps b s h.2
      exact ⟨a :: p', x, s', by simp [hl], by simp [hp, h.1], hb, hs⟩

theorem foldl_min_le_init (l : List Int) (a : Int) : l.foldl min a ≤ a := by
  induction l generalizing a with
  | nil => simp
  | cons x t ih =>
    simp only [List.foldl_cons]
    exact le_trans (ih (min a x)) (min_le_left a x)

theorem foldl_min_le_mem (l : List Int) :
    ∀ a x : Int, x ∈ l → l.foldl min a ≤ x := by
  induction l with
  | nil => intro a x hx; simp at hx
  | cons y t ih =>
    intro a x hx
    simp only [List.foldl_cons]
    rcases List.mem_cons.mp hx with h | h
    · subst h
      exact le_trans (foldl_min_le_init t (min a x)) (min_le_right a x)
    · exact ih (min a y) x h

theorem foldl_min_eq_init_or_mem (l : List Int) (a : Int) :
    l.foldl min a = a ∨ l.foldl min a ∈ l := by
  induction l generalizing a with
  | nil => simp
  | cons y t ih =>
    simp only [List.foldl_cons]
    rcases ih (min a y) with h | h
    · rcases min_cases a y with ⟨hm, _⟩ | ⟨hm, _⟩
      · left; rw [h, hm]
      · right; rw [h, hm]; exact List.mem_cons_self y t
    · right; exact List.mem_cons_of_mem y h

/-- The video loop, solved: under parse success it returns the minimum
of the initial `oldest` and *all* upload dates, and the accumulated
items of exactly the videos that pass the delay filter. -/
theorem processVids_ok (now : Int) (base : String) (delay : Nat)
    (vids : List Video) (hall : ∀ v ∈ vids, (parseDate v.upload_date).isSome = true) :
    ∀ oldest acc,
      processVids now base delay vids oldest acc =
        Except.ok ((vids.map vidDateSecs).foldl min oldest,
          acc.reverse ++ (vids.filter (keepVideo now delay)).map
            (fun v => mkItem base v (vidDateSecs v))) := by
  induction vids with
  | nil => intro oldest acc; simp [processVids]
  | cons v t ih =>
    intro oldest acc
    obtain ⟨dt, hdt⟩ := Option.isSome_iff_exists.mp (hall v (List.mem_cons_self v t))
    have hvds : vidDateSecs v = dateSecs dt := by simp [vidDateSecs, hdt]
    have hmin : (if dateSecs dt < oldest then dateSecs dt else oldest)
        = min oldest (dateSecs dt) := by
      rw [min_def]; split <;> split <;> omega
    have ht := ih (fun w hw => hall w (List.mem_cons_of_mem v hw))
    by_cases hk : now - dateSecs dt < (delay : Int) * 86400
    · have hkeep : keepVideo now delay v = false := by
        simp [keepVideo, hvds, hk]
      simp only [processVids, hdt, hmin, if_pos hk, ht, List.map_cons,
        List.foldl_cons, List.filter_cons, hkeep, hvds]
      simp [hvds]
    · have hkeep : keepVideo now delay v = true := by
        simp [keepVideo, hvds]
        omega
      simp only [processVids, hdt, hmin, if_neg hk, ht, List.map_cons,
        List.foldl_cons, List.filter_cons, hkeep, hvds]
      simp [hvds]

/-- The video loop aborts with a bad-date error whenever any listed
video's date fails to parse, whatever the accumulator state. -/
theorem processVids_error (now : Int) (base : String) (delay : Nat) :
    ∀ (vids : List Video) (v : Video), v ∈ vids →
      parseDate v.upload_date = none →
      ∀ oldest acc, ∃ raw, parseDate raw = none ∧
        processVids now base delay vids oldest acc =
          Except.error (.badUploadDate raw) := by
  intro vids
  induction vids with
  | nil => intro v hv; simp at hv
  | cons a t ih =>
    intro v hv hbad oldest acc
    cases ha : parseDate a.upload_date with
    | none =>
      exact ⟨a.upload_date, ha, by simp [processVids, ha]⟩
    | some dt =>
      have hvt : v ∈ t := by
        rcases List.mem_cons.mp hv with h | h
        · subst h; rw [hbad] at ha; cases ha
        · exact h
      simp only [processVids, ha]
      by_cases hk : now - dateSecs dt < (delay : Int) * 86400
      · rw [if_pos hk]
        exact ih v hvt hbad _ _
      · rw [if_neg hk]
        exact ih v hvt hbad _ _

/-- Evaluation of `get_feed`, solved, when every upload date parses: the feed carries
the filtered items, the min-folded publication date, and the selected
image. -/
theorem get_feed_ok (now : Int) (base : String) (ch : Channel)
    (vids : List Video) (delay : Nat)
    (hall : ∀ v ∈ vids, (parseDate v.upload_date).isSome = true) :
    get_feed now base ch vids delay = Except.ok {
      title := ch.channel
      link := ch.webpage_url
      description := ch.description
      itunes_author := ch.channel
      itunes_block := "Yes"
      itunes_subtitle := ch.description
      items := (vids.filter (keepVideo now delay)).map
        (fun v => mkItem base v (vidDateSecs v))
      pub_date := (vids.map vidDateSecs).foldl min now
      image := (squarest_thumbnail ch.thumbnails).map fun kt =>
        { title := ch.channel
          url := kt.2.url
          link := kt.2.url
          width := kt.2.width.getD 0
          height := kt.2.height.getD 0 } } := by
  have hp := processVids_ok now base delay vids hall now []
  simp only [get_feed, hp, List.reverse_nil, List.nil_append]

/-- A fixed sample channel (no thumbnails) for the concrete examples. -/
def chEx : Channel := ⟨"c", "", [], "w", "vu", 0⟩

/-- A sample video with the given id and upload date string. -/
def exVideo (i d : String) : Video := ⟨i, "t", "de", d, "up", "du"⟩

/-- The build instant of the concrete delay example: midnight UTC,
2021-01-31. -/
def c3Now : Int := dateSecs ⟨2021, 1, 31⟩

/-- Videos 10, 5, 2 and 0 days old at `c3Now`. -/
def c3Vids : List Video :=
  [exVideo "v10" "20210121", exVideo "v5" "20210126",
   exVideo "v2" "20210129", exVideo "v0" "20210131"]

/-! ## Claim theorems: the feed build -/

/-- C3 (confirmed): `get_feed` excludes exactly the videos whose age
`now − uploadDate` is strictly below `delay_days` days (the feed's items
are precisely the surviving videos, in order), and — whenever at least
one video survives — the feed's publication date is the minimum upload
date among the surviving videos.  Concretely, for videos 10, 5, 2 and 0
days old with `delay_days = 3`, the 2- and 0-day-old videos are
excluded and the publication date is the 10-day-old video's date. -/
theorem C3_delay_filter (now : Int) (base : String) (ch : Channel)
    (vids : List Video) (delay : Nat)
    (hall : ∀ v ∈ vids, (parseDate v.upload_date).isSome = true) :
    (∃ f, get_feed now base ch vids delay = Except.ok f ∧
      f.items = (vids.filter (keepVideo now delay)).map
        (fun v => mkItem base v (vidDateSecs v)) ∧
      (vids.filter (keepVideo now delay) ≠ [] →
        f.pub_date ∈ (vids.filter (keepVideo now delay)).map vidDateSecs ∧
        ∀ d ∈ (vids.filter (keepVideo now delay)).map vidDateSecs,
          f.pub_date ≤ d)) ∧
    (∃ f, get_feed c3Now "b" chEx c3Vids 3 = Except.ok f ∧
      f.items.map RssItem.guid = ["v10", "v5"] ∧
      f.pub_date = dateSecs ⟨2021, 1, 21⟩) := by
  constructor
  · refine ⟨_, get_feed_ok now base ch vids delay hall, rfl, ?_⟩
    intro hne
    have hub : ∀ d ∈ (vids.filter (keepVideo now delay)).map vidDateSecs,
        (vids.map vidDateSecs).foldl min now ≤ d := by
      intro d hd
      obtain ⟨v, hvS, rfl⟩ := List.mem_map.mp hd
      exact foldl_min_le_mem _ now _
        (List.mem_map_of_mem _ (List.mem_filter.mp hvS).1)
    refine ⟨?_, hub⟩
    obtain ⟨s0, hs0⟩ := List.exists_mem_of_ne_nil _ hne
    have hks : keepVideo now delay s0 = true := (List.mem_filter.mp hs0).2
    have hage : (delay : Int) * 86400 ≤ now - vidDateSecs s0 := by
      simp [keepVideo] at hks
      omega
    rcases foldl_min_eq_init_or_mem (vids.map vidDateSecs) now with hM | hM
    · have hMle : (vids.map vidDateSecs).foldl min now ≤ vidDateSecs s0 :=
        hub _ (List.mem_map_of_mem _ hs0)
      have hse : vidDateSecs s0 = (vids.map vidDateSecs).foldl min now := by
        omega
      rw [← hse]
      exact List.mem_map_of_mem _ hs0
    · obtain ⟨v, hv, hveq⟩ := List.mem_map.mp hM
      by_cases hkv : keepVideo now delay v = true
      · rw [← hveq]
        exact List.mem_map_of_mem _ (List.mem_filter.mpr ⟨hv, hkv⟩)
      · exfalso
        have hvy : now - vidDateSecs v < (delay : Int) * 86400 := by
          simp [keepVideo] at hkv
          omega
        have hMle : (vids.map vidDateSecs).foldl min now ≤ vidDateSecs s0 :=
          hub _ (List.mem_map_of_mem _ hs0)
        omega
  · refine ⟨_, get_feed_ok c3Now "b" chEx c3Vids 3 (by decide), ?_, ?_⟩ <;> decide

theorem C3_delay_filter_witness :
    (∀ v ∈ c3Vids, (parseDate v.upload_date).isSome = true) ∧
    (∃ f, get_feed c3Now "b" chEx c3Vids 3 = Except.ok f ∧
      f.items.map RssItem.guid = ["v10", "v5"] ∧
      f.pub_date = dateSecs ⟨2021, 1, 21⟩) :=
  ⟨by decide, (C3_delay_filter c3Now "b" chEx c3Vids 3 (by decide)).2⟩

/-- C10 (confirmed): the feed's publication date folds in the upload
dates of *all* parsed videos, those the delay filter later excludes
included: it is the minimum of the build instant `now` and every
video's upload date.  (For an empty list this yields `now`; for a
non-empty, all-excluded list, the oldest excluded video's date — see the
witness.) -/
theorem C10_pub_date_folds_all (now : Int) (base : String) (ch : Channel)
    (vids : List Video) (delay : Nat)
    (hall : ∀ v ∈ vids, (parseDate v.upload_date).isSome = true) :
    ∃ f, get_feed now base ch vids delay = Except.ok f ∧
      f.pub_date = (vids.map vidDateSecs).foldl min now :=
  ⟨_, get_feed_ok now base ch vids delay hall, rfl⟩

theorem C10_pub_date_folds_all_witness :
    (∀ v ∈ [exVideo "v1" "20210130"], (parseDate v.upload_date).isSome = true) ∧
    (∃ f, get_feed c3Now "b" chEx [exVideo "v1" "20210130"] 3 = Except.ok f ∧
      f.items = [] ∧ f.pub_date = dateSecs ⟨2021, 1, 30⟩) := by
  refine ⟨by decide, ?_⟩
  obtain ⟨f, hf, hp⟩ :=
    C10_pub_date_folds_all c3Now "b" chEx [exVideo "v1" "20210130"] 3 (by decide)
  refine ⟨f, hf, ?_, ?_⟩
  · have := get_feed_ok c3Now "b" chEx [exVideo "v1" "20210130"] 3 (by decide)
    rw [this] at hf
    rw [← Except.ok.inj hf]
    decide
  · rw [hp]; decide

/-- C8 (confirmed): if any video's `upload_date` fails to parse as a
strict `YYYYMMDD` calendar date, the whole build returns the typed
bad-upload-date error — the `Except` result carries no feed document at
all, so no partial feed can be emitted. -/
theorem C8_bad_date_aborts (now : Int) (base : String) (ch : Channel)
    (vids : List Video) (delay : Nat) (v : Video) (hv : v ∈ vids)
    (hbad : parseDate v.upload_date = none) :
    ∃ raw, parseDate raw = none ∧
      get_feed now base ch vids delay = Except.error (.badUploadDate raw) := by
  obtain ⟨raw, hraw, hp⟩ := processVids_error now base delay vids v hv hbad now []
  exact ⟨raw, hraw, by simp [get_feed, hp]⟩

theorem C8_bad_date_aborts_witness :
    exVideo "x" "2021-1-1" ∈ [exVideo "ok" "20210101", exVideo "x" "2021-1-1"] ∧
    parseDate (exVideo "x" "2021-1-1").upload_date = none ∧
    ∃ raw, parseDate raw = none ∧
      get_feed c3Now "b" chEx [exVideo "ok" "20210101", exVideo "x" "2021-1-1"] 0 =
        Except.error (.badUploadDate raw) :=
  ⟨by decide, by decide,
    C8_bad_date_aborts c3Now "b" chEx
      [exVideo "ok" "20210101", exVideo "x" "2021-1-1"] 0
      (exVideo "x" "2021-1-1") (by decide) (by decide)⟩

/-- C1 (counterexample): the claim as stated is false on two counts the
code takes differently.  First, the `.abs()` in the code sits on the
ratio, not on the difference, so the key `100u32 - (100·w/h) as u32`
wraps around `2^32` for any thumbnail wider than tall instead of giving
`|100 − 100·w/h|`: on `[a(150×100), b(25×100)]` the claim's rule keys
`a ↦ 50, b ↦ 75` and selects `a`, while the code keys
`a ↦ 2^32 − 50, b ↦ 75` and its feed image is `b` (both f32
computations here are exact: 1.5·100 = 150, 0.25·100 = 25).  Second,
the code's filter checks only that both dimensions are *present*, not
nonzero: on `[j(300×100), k(5×0)]` the claim says only `j` qualifies
(and selects it), while the code keys `j ↦ 2^32 − 200` and
`k ↦ 101` (5/0.0 = +∞ saturates to `u32::MAX`, and
`100 − u32::MAX` wraps to 101) and its feed image is the zero-height
`k`. -/
theorem C1_counterexample :
    ((claimSquarestThumbnail
        [⟨"a", some 150, some 100⟩, ⟨"b", some 25, some 100⟩]).map
      (fun kt => kt.2.url) = some "a" ∧
     (get_feed 0 "m" ⟨"c", "", [⟨"a", some 150, some 100⟩, ⟨"b", some 25, some 100⟩], "", "", 0⟩
        [] 0).toOption.map (fun f => f.image.map RssImage.url)
      = some (some "b")) ∧
    ((claimSquarestThumbnail
        [⟨"j", some 300, some 100⟩, ⟨"k", some 5, some 0⟩]).map
      (fun kt => kt.2.url) = some "j" ∧
     (get_feed 0 "m" ⟨"c", "", [⟨"j", some 300, some 100⟩, ⟨"k", some 5, some 0⟩], "", "", 0⟩
        [] 0).toOption.map (fun f => f.image.map RssImage.url)
      = some (some "k")) := by
  refine ⟨⟨?_, by decide⟩, ⟨?_, by decide⟩⟩
  · norm_num [claimSquarestThumbnail, claimThumbKey, minByKeyFirst]
  · norm_num [claimSquarestThumbnail, claimThumbKey, minByKeyFirst]

/-- C1 (amended): the feed image is chosen among thumbnails whose width
and height are both *present* (a zero dimension is not filtered out:
through `+∞`/NaN it still receives a key and can win), the one
minimizing the `u32`-wrapping key `100 - (w as f32 / h as f32 * 100.0)
as u32` — which wraps around `2^32` whenever the ratio term exceeds 100
— with the first minimal match winning ties; when no thumbnail has both
dimensions present the feed has no image element.  For the thumbnail
list `[(100,50), (40,40), (10,100)]` the `(40,40)` thumbnail is
selected, as the claim's example says. -/
theorem C1_thumbnail_selection (ts : List Thumbnail) :
    (squarest_thumbnail ts = none ↔
      ts.filter (fun t => t.width.isSome && t.height.isSome) = []) ∧
    (∀ k t, squarest_thumbnail ts = some (k, t) →
      t ∈ ts ∧ t.width.isSome = true ∧ t.height.isSome = true ∧
      k = thumbKey (t.width.getD 0) (t.height.getD 0) ∧
      ∃ pre post,
        ts.filter (fun t => t.width.isSome && t.height.isSome)
          = pre ++ t :: post ∧
        (∀ t' ∈ pre, k < thumbKey (t'.width.getD 0) (t'.height.getD 0)) ∧
        (∀ t' ∈ post, k ≤ thumbKey (t'.width.getD 0) (t'.height.getD 0))) ∧
    (∀ (now : Int) (base : String) (ch : Channel) (vids : List Video)
        (delay : Nat) (f : Feed),
      get_feed now base ch vids delay = Except.ok f →
      f.image = (squarest_thumbnail ch.thumbnails).map fun kt =>
        { title := ch.channel
          url := kt.2.url
          link := kt.2.url
          width := kt.2.width.getD 0
          height := kt.2.height.getD 0 }) ∧
    squarest_thumbnail
        [⟨"u1", some 100, some 50⟩, ⟨"u2", some 40, some 40⟩,
          ⟨"u3", some 10, some 100⟩]
      = some (0, ⟨"u2", some 40, some 40⟩) := by
  refine ⟨?_, ?_, ?_, by decide⟩
  · rw [squarest_thumbnail, min_by_key_eq_none_iff]
    constructor
    · intro h
      exact List.map_eq_nil_iff.mp h
    · intro h
      rw [h]
      rfl
  · intro k t h
    obtain ⟨pre', post', hsplit, hpre', hpost'⟩ :=
      min_by_key_spec _ (k, t) h
    obtain ⟨pre, x, post, hfil, hpremap, hfx, hpostmap⟩ :=
      map_eq_append_cons _ _ _ _ _ hsplit
    have hxt : x = t := congrArg Prod.snd hfx
    subst hxt
    have hk : thumbKey (x.width.getD 0) (x.height.getD 0) = k :=
      congrArg Prod.fst hfx
    have hmem : x ∈ ts.filter (fun t => t.width.isSome && t.height.isSome) := by
      rw [hfil]
      exact List.mem_append.mpr (Or.inr (List.mem_cons_self x post))
    have hmem' := List.mem_filter.mp hmem
    have hdims : x.width.isSome = true ∧ x.height.isSome = true := by
      simpa using hmem'.2
    refine ⟨hmem'.1, hdims.1, hdims.2, hk.symm, pre, post, hfil, ?_, ?_⟩
    · intro t' ht'
      have : (thumbKey (t'.width.getD 0) (t'.height.getD 0), t') ∈ pre' := by
        rw [← hpremap]
        exact List.mem_map_of_mem _ ht'
      exact hpre' _ this
    · intro t' ht'
      have : (thumbKey (t'.width.getD 0) (t'.height.getD 0), t') ∈ post' := by
        rw [← hpostmap]
        exact List.mem_map_of_mem _ ht'
      exact hpost' _ this
  · intro now base ch vids delay f h
    unfold get_feed at h
    cases hp : processVids now base delay vids now [] with
    | error e =>
      rw [hp] at h
      simp at h
    | ok pr =>
      rw [hp] at h
      obtain ⟨oldest, items⟩ := pr
      simp only [Except.ok.injEq] at h
      rw [← h]

theorem C1_thumbnail_selection_witness :
    (⟨"u2", some 40, some 40⟩ : Thumbnail) ∈
      [⟨"u1", some 100, some 50⟩, ⟨"u2", some 40, some 40⟩,
        ⟨"u3", some 10, some 100⟩] ∧
    (Thumbnail.mk "u2" (some 40) (some 40)).width.isSome = true ∧
    (Thumbnail.mk "u2" (some 40) (some 40)).height.isSome = true ∧
    0 = thumbKey ((Thumbnail.mk "u2" (some 40) (some 40)).width.getD 0)
        ((Thumbnail.mk "u2" (some 40) (some 40)).height.getD 0) ∧
    ∃ pre post,
      (([⟨"u1", some 100, some 50⟩, ⟨"u2", some 40, some 40⟩,
          ⟨"u3", some 10, some 100⟩] : List Thumbnail).filter
        (fun t => t.width.isSome && t.height.isSome))
          = pre ++ (⟨"u2", some 40, some 40⟩ : Thumbnail) :: post ∧
      (∀ t' ∈ pre, 0 < thumbKey (t'.width.getD 0) (t'.height.getD 0)) ∧
      (∀ t' ∈ post, 0 ≤ thumbKey (t'.width.getD 0) (t'.height.getD 0)) :=
  (C1_thumbnail_selection
      [⟨"u1", some 100, some 50⟩, ⟨"u2", some 40, some 40⟩,
        ⟨"u3", some 10, some 100⟩]).2.1
    0 ⟨"u2", some 40, some 40⟩ (by decide)

end YtCast
